import Mathlib

/-!
Verification of the damage / loss determination pipeline of pelicun
(`src/pelicun/model.py`), as a shallow embedding in Lean 4.

Modelling conventions:
- pandas DataFrames become lists of keyed columns; a column's values are a
  function from the realization index (`Nat`) to `ℚ` (or `Option ℚ` where the
  code works with NaN cells).
- Machine floats become `ℚ`; the claims settled here concern order, selection
  and bookkeeping behaviour, which does not depend on rounding.
- The random multiplicative noise `exp(eps)` in `DemandModel.estimate_RID`
  becomes an explicit positive factor passed in as a parameter.
-/

namespace Pelicun

/-! ## Definitions -/

/-- Per-block, per-realization damage-state resolution from
`DamageModel._evaluate_damage_state`: the damage state starts at 0; iterating
over the limit states in column order, wherever the sampled capacity is
strictly below the realized demand (`capacity_sample.sub(demand) < 0`) the
damage state cell is overwritten (`mask`) with that limit state's LS-to-DS
pick from the `lsds` sample. -/
def evaluate_damage_state (demand : ℚ) (capacity : Nat → ℚ) (lsds : Nat → Nat)
    (ls_list : List Nat) : Nat :=
  ls_list.foldl (fun ds ls => if capacity ls < demand then lsds ls else ds) 0

/-- Constant-median decision-variable function from `prep_constant_median_DV`:
returns the fixed median for every damaged quantity. -/
def prep_constant_median_DV (median : ℚ) : ℚ → ℚ :=
  fun _ => median

/-- The computation performed by `np.interp` over a list of
(x, y) control points with strictly increasing x coordinates: clamped to the
first / last y value outside the control range, linear interpolation inside. -/
def np_interp (x : ℚ) : List (ℚ × ℚ) → ℚ
  | [] => 0
  | [p] => p.2
  | p :: q :: rest =>
    if x ≤ p.1 then p.2
    else if x ≤ q.1 then p.2 + (q.2 - p.2) * (x - p.1) / (q.1 - p.1)
    else np_interp x (q :: rest)

/-- Bounded multilinear decision-variable function from
`prep_bounded_multilinear_median_DV`: the median is
`np.interp(quantity, quantities, medians)`. -/
def prep_bounded_multilinear_median_DV (medians quantities : List ℚ) : ℚ → ℚ :=
  fun quantity => np_interp quantity (quantities.zip medians)

/-- FEMA P-58 residual-drift estimate of `DemandModel.estimate_RID` for one
table cell. Subdomains: `PID < yield_drift` maps to 0,
`PID < 4 * yield_drift` maps to `0.3 * (PID - yield_drift)`, the rest to
`PID - 3 * yield_drift` (the medium/small masks overwrite the large one, in
the order the code assigns them). Strictly positive values are multiplied by
the lognormal noise factor `noise i` (the code computes
`exp(log RID + eps)` = `RID * exp(eps)`), and finally the result is capped at
the PID value via `np.minimum(PID, RID)`. -/
def estimate_RID (yield_drift : ℚ) (PID noise : Nat → ℚ) : Nat → ℚ := fun i =>
  let pid := PID i
  let rid0 : ℚ :=
    if pid < yield_drift then 0
    else if pid < 4 * yield_drift then (3 / 10) * (pid - yield_drift)
    else pid - 3 * yield_drift
  let rid1 := if 0 < rid0 then rid0 * noise i else rid0
  min pid rid1

/-- Column key of the decision-variable (consequence) sample produced by
`BldgRepairModel._generate_DV_sample`; the levels are
dv / loss / dmg / ds / loc / dir. -/
structure DVKey where
  dv : String
  loss : String
  dmg : String
  ds : String
  loc : String
  dir : String
deriving DecidableEq

/-- Consequence sample table: the column keys present, plus the cell values
(per key and realization). After `DV_sample.fillna(0)` the table holds plain
numbers, so values are `ℚ`. -/
structure DVTable where
  cols : List DVKey
  val : DVKey → Nat → ℚ

/-- Summed replacement consequence of one realization:
`DV_sum = DV_sample.groupby(level=[1]).sum()` restricted to the column
`replacement` (level 1 is the loss level). -/
def replacement_sum (T : DVTable) (i : Nat) : ℚ :=
  ((T.cols.filter fun k => decide (k.loss = "replacement")).map fun k => T.val k i).sum

/-- Replacement override at the end of `BldgRepairModel._generate_DV_sample`:
when the table has `replacement` columns, realizations whose summed
replacement consequence is positive get every column with location other than
0 set to 0.0; all other cells are left as they are. -/
def apply_replacement_override (T : DVTable) : DVTable :=
  { cols := T.cols
    val := fun k i =>
      if (T.cols.filter fun c => decide (c.loss = "replacement")) ≠ []
          ∧ 0 < replacement_sum T i ∧ k.loc ≠ "0"
      then 0 else T.val k i }

/-- Locations present among the columns of one decision-variable type:
the level-(0, 4) groupby of `aggregate_losses` produces one group per
(dv type, loc) pair. -/
def dv_group_locs (T : DVTable) (dvType : String) : List String :=
  ((T.cols.filter fun k => decide (k.dv = dvType)).map fun k => k.loc).dedup

/-- Per-location total of one decision-variable type in one realization
(the summed group `DVG[(dvType, l)]` of `aggregate_losses`). -/
def dv_loc_total (T : DVTable) (dvType l : String) (i : Nat) : ℚ :=
  ((T.cols.filter fun k => decide (k.dv = dvType ∧ k.loc = l)).map fun k => T.val k i).sum

/-- `repair_cost` column of `aggregate_losses`: `DVG[COST].sum(axis=1)`. -/
def repair_cost (T : DVTable) (i : Nat) : ℚ :=
  ((dv_group_locs T "COST").map fun l => dv_loc_total T "COST" l i).sum

/-- `repair_time-sequential` column of `aggregate_losses`:
`DVG[TIME].sum(axis=1)`. -/
def repair_time_sequential (T : DVTable) (i : Nat) : ℚ :=
  ((dv_group_locs T "TIME").map fun l => dv_loc_total T "TIME" l i).sum

/-- `repair_time-parallel` column of `aggregate_losses`:
`DVG[TIME].max(axis=1)`. -/
def repair_time_parallel (T : DVTable) (i : Nat) : ℚ :=
  match (dv_group_locs T "TIME").map fun l => dv_loc_total T "TIME" l i with
  | [] => 0
  | x :: xs => xs.foldl max x

/-- Concrete consequence table used by the C4 witness: one global replacement
column (location 0) and one location-specific column. -/
def dvC4 : DVTable :=
  { cols := [⟨"COST", "replacement", "replacement", "1", "0", "1"⟩,
             ⟨"COST", "cmp.A", "cmp.A", "1", "2", "1"⟩]
    val := fun k _ => if k.loss = "replacement" then 5 else 7 }

/-- Concrete consequence table used by the C10 witness: cost and time entries
at two locations. -/
def dvC10 : DVTable :=
  { cols := [⟨"COST", "cmp.A", "cmp.A", "1", "1", "1"⟩,
             ⟨"COST", "cmp.A", "cmp.A", "1", "2", "1"⟩,
             ⟨"TIME", "cmp.A", "cmp.A", "1", "1", "1"⟩,
             ⟨"TIME", "cmp.A", "cmp.A", "1", "2", "1"⟩]
    val := fun k _ => if k.dv = "TIME" then 3 else 4 }

/-- Per-limit-state fragility parameters of a component, as read from the
damage parameter table in `DamageModel._create_dmg_RVs` (`Theta_0` and
`Family`; a missing cell is `none`). -/
structure LSParams where
  theta0 : Option ℚ
  family : Option String
deriving DecidableEq

/-- A registered random-variable set: its name, the tags of its member RVs,
and its correlation matrix (rows of rationals). -/
structure RVSetSpec where
  name : String
  tags : List String
  corr : List (List ℚ)

/-- Capacity RV tag built in `DamageModel._create_dmg_RVs`:
`FRG-cmp-loc-dir-block-ls`. -/
def frg_rv_tag (cmp loc dir : String) (block : Nat) (ls : String) : String :=
  "FRG-" ++ cmp ++ "-" ++ loc ++ "-" ++ dir ++ "-" ++ toString block ++ "-" ++ ls

/-- Capacity RV tags collected in `frg_rv_set_tags` for one block: one tag per
limit state whose `Theta_0` is defined and whose family is not `function`
(the `function` family takes the damage-function branch and registers no
correlated fragility set). -/
def block_capacity_tags (cmp loc dir : String) (limit_states : List String)
    (params : String → LSParams) (block_i : Nat) : List String :=
  ((limit_states.filter fun ls =>
      decide ((params ls).theta0.isSome = true ∧ (params ls).family ≠ some "function"))).map
    (frg_rv_tag cmp loc dir (block_i + 1))

/-- The RV sets registered by `DamageModel._create_dmg_RVs` for one
performance group: per block, when the block collected at least one capacity
RV tag, one set holding those tags with correlation matrix `np.ones((k, k))`. -/
def create_dmg_RV_sets (cmp loc dir : String) (limit_states : List String)
    (params : String → LSParams) (nblocks : Nat) : List RVSetSpec :=
  (List.range nblocks).filterMap fun block_i =>
    let tags := block_capacity_tags cmp loc dir limit_states params block_i
    if 0 < tags.length then
      some { name := "FRG-" ++ cmp ++ "-" ++ loc ++ "-" ++ dir ++ "-"
                ++ toString (block_i + 1) ++ "_set"
             tags := tags
             corr := List.replicate tags.length (List.replicate tags.length 1) }
    else none

/-- EDP-name-to-demand-type-acronym table, from `EDP_to_demand_type` in
base.py. -/
def EDP_to_demand_type : List (String × String) :=
  [("Story Drift Ratio", "PID"),
   ("Peak Interstory Drift Ratio", "PID"),
   ("Roof Drift Ratio", "PRD"),
   ("Peak Roof Drift Ratio", "PRD"),
   ("Damageable Wall Drift", "DWD"),
   ("Racking Drift Ratio", "RDR"),
   ("Mega Drift Ratio", "PMD"),
   ("Residual Drift Ratio", "RID"),
   ("Residual Interstory Drift Ratio", "RID"),
   ("Peak Effective Drift Ratio", "EDR"),
   ("Peak Floor Acceleration", "PFA"),
   ("Peak Floor Velocity", "PFV"),
   ("Peak Floor Displacement", "PFD"),
   ("Peak Link Rotation Angle", "LR"),
   ("Peak Link Beam Chord Rotation", "LBR"),
   ("Peak Gust Wind Speed", "PWS"),
   ("Peak Inundation Height", "PIH"),
   ("Peak Ground Acceleration", "PGA"),
   ("Peak Ground Velocity", "PGV"),
   ("Spectral Acceleration", "SA"),
   ("Spectral Velocity", "SV"),
   ("Spectral Displacement", "SD"),
   ("Peak Spectral Acceleration", "SA"),
   ("Peak Spectral Velocity", "SV"),
   ("Peak Spectral Displacement", "SD"),
   ("Permanent Ground Deformation", "PGD"),
   ("One", "ONE")]

/-- The `Demand` parameters registered for a component in the damage model
database, as read in `DamageModel.get_required_demand_type`:
(Demand, Directional), (Demand, Offset), (Demand, Type). -/
structure DemandParams where
  directional : Bool
  offset : Int
  demand_type : String

/-- Split a character list at the first bar character, returning the parts
before and after it (none when there is no bar); character-level model of
`demand_type.split` on the bar. -/
def splitBarAux : List Char → List Char → Option (List Char × List Char)
  | [], _ => none
  | c :: rest, acc =>
    if c = '|' then some (acc.reverse, rest) else splitBarAux rest (c :: acc)

/-- Parse a demand type cell into its name and optional subtype, mirroring the
bar check and split in `get_required_demand_type`. -/
def parse_demand_type (dt : String) : String × Option String :=
  match splitBarAux dt.data [] with
  | none => (dt, none)
  | some (a, b) => (String.mk a, some (String.mk b))

/-- A performance group key (component id, location, direction); the location
is kept as an integer since the code parses it with `int` before applying the
offsets. -/
abbrev PG := String × Int × String

/-- `DamageModel.get_required_demand_type`: resolve the EDP type (acronym plus
optional subtype), the demand location (component location plus component
offset plus the optional global offset registered for the demand type), and
the direction (the component direction, or 0 for non-directional components).
Returns `none` when the demand type name is not a known EDP (a KeyError in
the code). -/
def get_required_demand_type (demand_offset : List (String × Int))
    (DP : DemandParams) (pg : PG) : Option (String × String × String) :=
  match parse_demand_type DP.demand_type with
  | (name, sub) =>
    match EDP_to_demand_type.lookup name with
    | none => none
    | some acr =>
      let edpType := match sub with
        | none => acr
        | some s => acr ++ "_" ++ s
      let off : Int :=
        match demand_offset.lookup acr with
        | some g => DP.offset + g
        | none => DP.offset
      let dirStr := if DP.directional then pg.2.2 else "0"
      some (edpType, toString (pg.2.1 + off), dirStr)

/-- Modelled from the spec: `options.nondir_multi`, called by
`_assemble_required_demand_data`, is not among the sources here (the Options
class in the base.py snapshot only stores `nondir_multi_dict`). Per the spec
and the base.py docstring, the non-directional multiplier is configurable per
EDP type, with an ALL entry applying to every EDP type, and its default value
is 1.2. -/
def nondir_multi (cfg : List (String × ℚ)) (edp : String) : ℚ :=
  match cfg.lookup edp with
  | some m => m
  | none =>
    match cfg.lookup "ALL" with
    | some m => m
    | none => 6 / 5

/-- One column of the demand sample, keyed (EDP type, location, direction),
with one value per realization. -/
abbrev DemandCol := (String × String × String) × (Nat → ℚ)

/-- The demand sample: a list of keyed columns. -/
abbrev DemandSample := List DemandCol

/-- Result of `_assemble_required_demand_data`: either a demand vector, or
a logged warning with demand left as None (the non-directional lookup fails
inside a try/except), or an uncaught KeyError (the directional lookup is not
guarded). -/
inductive AssembleResult where
  | ok (demand : Nat → ℚ)
  | warnNone
  | keyError

/-- `DamageModel._assemble_required_demand_data`: for a non-directional
requirement (direction 0), take the row-wise maximum over all available
directions at the requested EDP type and location and scale it by the
non-directional multiplier; if no such column exists the except branch logs a
warning and returns None. For a directional requirement, return the exact
column, and raise KeyError when it is missing. -/
def assemble_required_demand_data (ndcfg : List (String × ℚ)) (sample : DemandSample)
    (req : String × String × String) : AssembleResult :=
  if req.2.2 = "0" then
    match sample.filter fun c => decide (c.1.1 = req.1 ∧ c.1.2.1 = req.2.1) with
    | [] => .warnNone
    | c :: cs =>
      .ok fun i => (cs.foldl (fun m cc => max m (cc.2 i)) (c.2 i)) * nondir_multi ndcfg req.1
  else
    match sample.find? fun c => decide (c.1 = req) with
    | some c => .ok c.2
    | none => .keyError

/-- The per-performance-group loop of `DamageModel.calculate`, with the
sampled capacities and LS-to-DS picks passed in as oracles (they come from
`_generate_dmg_sample`): resolve the required demand, assemble the demand
data, and evaluate the damage states. A PG whose demand is missing does not
get skipped: when `_assemble_required_demand_data` returned None after its
warning, `_evaluate_damage_state` computes `capacity_sample.sub(None)`, which
raises TypeError and aborts the whole calculation; a missing directional
column raises KeyError directly. -/
def DamageModel_calculate (demand_offset : List (String × Int))
    (ndcfg : List (String × ℚ)) (DP : String → DemandParams) (sample : DemandSample)
    (capacity : PG → Nat → Nat → ℚ) (lsds : PG → Nat → Nat → Nat)
    (ls_list : PG → List Nat) (PGs : List PG) :
    Except String (List (PG × (Nat → Nat))) :=
  PGs.mapM fun pg =>
    match get_required_demand_type demand_offset (DP pg.1) pg with
    | none => .error "KeyError: unknown EDP type"
    | some req =>
      match assemble_required_demand_data ndcfg sample req with
      | .ok d => .ok (pg, fun i =>
          evaluate_damage_state (d i) (fun ls => capacity pg ls i)
            (fun ls => lsds pg ls i) (ls_list pg))
      | .warnNone => .error "TypeError: unsupported operand type for sub: float and NoneType"
      | .keyError => .error "KeyError: demand column missing"

/-- Damage-model demand parameters used by the C2 theorem: component cmp.A is
directional with PFA demand, component cmp.B is non-directional with
story-drift demand. -/
def dpC2 : String → DemandParams := fun c =>
  if c = "cmp.A" then ⟨true, 0, "Peak Floor Acceleration"⟩
  else ⟨false, 0, "Story Drift Ratio"⟩

/-- Demand sample used by the C2 theorem: only a PFA column at location 1,
direction 1; no PID data at all. -/
def sampleC2 : DemandSample := [(("PFA", "1", "1"), fun _ => 1)]

/-- Demand sample used by the C7 witness: PFA columns in two directions at
location 1 plus one at location 2. -/
def sampleC7 : DemandSample :=
  [(("PFA", "1", "1"), fun _ => 2),
   (("PFA", "1", "2"), fun _ => 3),
   (("PFA", "2", "1"), fun _ => 9)]

/-- First-occurrence deduplication, the order produced by pandas
`Index.unique().tolist()`. -/
def uniqueFirst {α : Type} [DecidableEq α] (l : List α) : List α :=
  l.foldl (fun acc x => if x ∈ acc then acc else acc ++ [x]) []

/-- Column key of the damage quantity sample `qnt_sample`
(component, location, direction, damage state). -/
structure DmgKey where
  cmp : String
  loc : String
  dir : String
  ds : String
deriving DecidableEq

/-- The damage quantity sample: its columns and the cell values; a NaN cell
(damage information cleared) is `none`. -/
structure QntTable where
  cols : List DmgKey
  val : DmgKey → Nat → Option ℚ

/-- The component quantity sample `cmp_qnt = self._asmnt.asset.cmp_sample`:
its (component, location, direction) columns and values. -/
structure CmpQnt where
  cols : List (String × String × String)
  val : String → String → String → Nat → ℚ

/-- NaN-skipping maximum of two optional values, the behaviour of the pandas
groupby max used on the source component columns. -/
def optMax : Option ℚ → Option ℚ → Option ℚ
  | none, b => b
  | some a, none => some a
  | some a, some b => some (max a b)

/-- The components available in the damage sample:
`qnt_sample.columns.get_level_values(0).unique().tolist()`. -/
def cmpList (T : QntTable) : List String :=
  uniqueFirst (T.cols.map fun k => k.cmp)

/-- Source condition of a damage-process task for damage state `dsT` of
component `src` in realization `i`: the groupby-max over the source
component's columns in that damage state is positive
(`source_ds_vals > 0.0`, NaN cells skipped). -/
def sourceTriggered (T : QntTable) (src dsT : String) (i : Nat) : Bool :=
  match ((T.cols.filter fun k => decide (k.cmp = src ∧ k.ds = dsT)).map
      fun k => T.val k i).foldl optMax none with
  | some v => decide (0 < v)
  | none => false

/-- Target component resolution: the reserved token ALL expands, at
application time, to the available component list minus the source component;
otherwise the named component is targeted. -/
def resolveTargets (cmp_list : List String) (src tspec : String) : List String :=
  if tspec = "ALL" then cmp_list.erase src else [tspec]

/-- A target event of a damage-process task: force a damage state, or NA
(clear the damage information). -/
inductive TargetEvent where
  | toDS (ds : String)
  | clear
deriving DecidableEq

/-- The target damage-state columns touched by a DS target event: one key per
target component and per (location, direction) pair of that component in the
component quantity sample. -/
def newKeys (cq : CmpQnt) (ts : List String) (dsI : String) : List DmgKey :=
  ts.flatMap fun t => (cq.cols.filter fun p => decide (p.1 = t)).map
    fun p => ⟨t, p.2.1, p.2.2, dsI⟩

/-- Add a column on demand: append it unless it is already present. -/
def insertCol (cols : List DmgKey) (k : DmgKey) : List DmgKey :=
  if k ∈ cols then cols else cols ++ [k]

/-- Effect of a DS target event in `DamageModel._perform_dmg_task`: in the
realizations selected by the source mask, all existing columns of the target
components are first zeroed (`qnt_sample.loc[source_mask, target_cmp] = 0.0`);
then, for every (location, direction) pair of each target component in the
component quantity sample, the target damage-state column is created on
demand (filled with 0.0) if missing, and its masked rows are set to the
component quantity values. -/
def applyDS (T : QntTable) (cq : CmpQnt) (mask : Nat → Bool) (ts : List String)
    (dsI : String) : QntTable :=
  { cols := (newKeys cq ts dsI).foldl insertCol T.cols
    val := fun k i =>
      if k.cmp ∈ ts ∧ k.ds = dsI ∧ (k.cmp, k.loc, k.dir) ∈ cq.cols then
        if mask i then some (cq.val k.cmp k.loc k.dir i)
        else if k ∈ T.cols then T.val k i else some 0
      else if k.cmp ∈ ts ∧ k ∈ T.cols ∧ mask i then some 0
      else T.val k i }

/-- Effect of an NA target event in `DamageModel._perform_dmg_task`: in the
realizations selected by the source mask, the quantity information of the
target components is removed (`qnt_sample.loc[source_mask, target_cmp] =
np.nan`). -/
def applyNA (T : QntTable) (mask : Nat → Bool) (ts : List String) : QntTable :=
  { cols := T.cols
    val := fun k i =>
      if k.cmp ∈ ts ∧ k ∈ T.cols ∧ mask i then none else T.val k i }

/-- `DamageModel._perform_dmg_task` for a task whose source event is a damage
state `dsT` of component `src`: when the source component has no column in
that damage state the event is skipped; otherwise the source mask is computed
once, from the state of the table at the start of the task, and every target
info is applied in order. -/
def perform_dmg_task (T : QntTable) (cq : CmpQnt) (src dsT : String)
    (target_infos : List (String × TargetEvent)) : QntTable :=
  if (T.cols.filter fun k => decide (k.cmp = src ∧ k.ds = dsT)) = [] then T
  else
    target_infos.foldl
      (fun acc ti =>
        match ti.2 with
        | .toDS dsI =>
          applyDS acc cq (sourceTriggered T src dsT) (resolveTargets (cmpList T) src ti.1) dsI
        | .clear =>
          applyNA acc (sourceTriggered T src dsT) (resolveTargets (cmpList T) src ti.1)) T

/-- Damage sample used by the C3 witness: cmp.A damaged in damage state 1,
cmp.B damaged in damage state 1. -/
def qntC3 : QntTable :=
  { cols := [⟨"cmp.A", "1", "1", "1"⟩, ⟨"cmp.B", "1", "1", "1"⟩]
    val := fun k _ => if k.cmp = "cmp.A" then some 1 else some 2 }

/-- Component quantity sample used by the C3 witness. -/
def cqC3 : CmpQnt :=
  { cols := [("cmp.A", "1", "1"), ("cmp.B", "1", "1")]
    val := fun _ _ _ _ => 10 }

/-- The groupby key used for the economies-of-scale aggregation `eco_qnt` in
`_generate_DV_sample`: AcrossFloors pools away the location, and
AcrossDamageStates pools away the damage state; the surviving levels and
their order are cmp, then loc (when kept), then ds (when kept). -/
def ecoKey (AF ADS : Bool) (k : DmgKey) : List String :=
  match AF, ADS with
  | true, true => [k.cmp]
  | true, false => [k.cmp, k.ds]
  | false, true => [k.cmp, k.loc]
  | false, false => [k.cmp, k.loc, k.ds]

/-- The column keys of the `eco_qnt` groupby table. -/
def eco_cols (AF ADS : Bool) (dqCols : List DmgKey) : List (List String) :=
  uniqueFirst (dqCols.map (ecoKey AF ADS))

/-- The values of the `eco_qnt` groupby table: the damaged quantities pooled
over each group. -/
def eco_val (AF ADS : Bool) (dqCols : List DmgKey) (dqVal : DmgKey → Nat → ℚ)
    (gk : List String) (i : Nat) : ℚ :=
  ((dqCols.filter fun k => decide (ecoKey AF ADS k = gk)).map fun k => dqVal k i).sum

/-- One row of the loss map: the loss component id, the driver component of
its DMG driver, and the consequence name looked up in the loss parameters. -/
structure LossMapEntry where
  id : String
  driver : String
  cons : String

/-- `ds.startswith("DS")` at the character level. -/
def dsPrefix (s : String) : Bool :=
  match s.data with
  | 'D' :: 'S' :: _ => true
  | _ => false

/-- `ds[2:]`: the damage state id after the DS prefix. -/
def dsIdOf (s : String) : String :=
  match s.data with
  | 'D' :: 'S' :: rest => String.mk rest
  | _ => s

/-- Column keys (loss component id, damage state id, residual eco-group key)
of the median consequence table built by
`BldgRepairModel._calc_median_consequence` for one decision-variable type.
Per loss-map entry: skip when the consequence has no row for the DV type, or
when the driver is absent from the cmp level of `eco_qnt`; then per DS column
of the loss parameters: skip non-DS labels, damage state 0, and undefined
`Theta_0`. When `eco_qnt` carries a `ds` level (AcrossDamageStates false),
the code reads `avail_ds` from level 0 of the driver's remaining columns and
slices `eco_qnt.loc[:, (driver, ds_id)]` - which addresses the level directly
after cmp, whatever it holds; otherwise the whole driver slice is used (a
single column X when nothing remains). -/
def calc_median_cols (AF ADS : Bool) (ds_univ : List String)
    (loss_map : List LossMapEntry) (hasDV : String → Bool)
    (theta_defined : String → String → Bool) (dqCols : List DmgKey) :
    List (String × String × List String) :=
  loss_map.flatMap fun e =>
    if hasDV e.cons = false then []
    else if ((eco_cols AF ADS dqCols).filter fun gk => decide (gk.headD "" = e.driver)) = []
    then []
    else
      ds_univ.flatMap fun dsStr =>
        if dsPrefix dsStr = false then []
        else if dsIdOf dsStr = "0" then []
        else if theta_defined e.cons (dsIdOf dsStr) = false then []
        else if ADS = false then
          if (((eco_cols AF ADS dqCols).filter fun gk => decide (gk.headD "" = e.driver)).map
              fun gk => gk.getD 1 "").contains (dsIdOf dsStr) = false then []
          else
            (((eco_cols AF ADS dqCols).filter fun gk =>
                decide (gk.headD "" = e.driver ∧ gk.getD 1 "" = dsIdOf dsStr)).map
              fun gk => (e.id, dsIdOf dsStr, gk.drop 2))
        else
          (((eco_cols AF ADS dqCols).filter fun gk => decide (gk.headD "" = e.driver)).map
            fun gk => (e.id, dsIdOf dsStr, gk.drop 1))

/-- Damage quantity columns used by the C5 theorem: one driver component
damaged in damage state 1 at locations 2 and 3. -/
def dqColsC5 : List DmgKey :=
  [⟨"cmp.A", "2", "1", "1"⟩, ⟨"cmp.A", "3", "1", "1"⟩]

/-! ## Theorems -/

/-- Accumulator-overwrite fold: the result is the image of the last element
satisfying the predicate, or the initial value when none does. -/
theorem foldl_overwrite {α β : Type} (p : α → Prop) [DecidablePred p] (f : α → β)
    (l : List α) (d : β) :
    l.foldl (fun acc a => if p a then f a else acc) d
      = (((l.filter fun a => decide (p a)).getLast?.map f).getD d) := by
  induction l generalizing d with
  | nil => simp
  | cons a t ih =>
    by_cases h : p a
    · simp only [List.foldl_cons, if_pos h, List.filter_cons, decide_eq_true_eq, h, if_true,
        ite_true]
      rw [ih]
      cases hf : t.filter fun a => decide (p a) with
      | nil => simp [hf]
      | cons y ys =>
        rw [List.getLast?_cons_cons, List.getLast?_eq_getLast _ (by simp)]
        simp
    · simp only [List.foldl_cons, if_neg h, List.filter_cons, decide_eq_true_eq, h, if_false,
        ite_false]
      exact ih d

/-- In a strictly increasing list, every member is at most the last element. -/
theorem mem_le_getLast_of_pairwise {xs : List Nat} (h : List.Pairwise (· < ·) xs) :
    ∀ a ∈ xs, ∀ b ∈ xs.getLast?, a ≤ b := by
  induction xs with
  | nil => intro a ha; simp at ha
  | cons x t ih =>
    intro a ha b hb
    cases t with
    | nil =>
      simp at ha hb
      omega
    | cons y ys =>
      rw [List.getLast?_cons_cons] at hb
      rcases List.mem_cons.mp ha with rfl | hat
      · have hlt := (List.pairwise_cons.mp h).1
        have hbmem : b ∈ y :: ys := List.mem_of_mem_getLast? hb
        exact le_of_lt (hlt b hbmem)
      · exact ih (List.Pairwise.of_cons h) a hat b hb

/-- C1: for every performance-group block and realization, the damage state
assigned by `DamageModel._evaluate_damage_state` is the LS-to-DS pick of the
last limit state in column order whose sampled capacity is strictly below the
realized demand (0 when none is), and when the limit-state ids are sorted
ascending that last exceeded limit state is the highest-numbered exceeded one;
picks of lower exceeded limit states are overwritten, not combined or
maximized. -/
theorem C1_damage_state_is_highest_exceeded_pick
    (demand : ℚ) (capacity : Nat → ℚ) (lsds : Nat → Nat) (ls_list : List Nat)
    (hsorted : List.Pairwise (· < ·) ls_list) :
    (evaluate_damage_state demand capacity lsds ls_list
        = (((ls_list.filter fun ls => decide (capacity ls < demand)).getLast?.map lsds).getD 0))
    ∧ ∀ ls ∈ ls_list.filter fun ls => decide (capacity ls < demand),
        ∀ top ∈ (ls_list.filter fun ls => decide (capacity ls < demand)).getLast?, ls ≤ top := by
  constructor
  · exact foldl_overwrite (fun ls => capacity ls < demand) lsds ls_list 0
  · exact mem_le_getLast_of_pairwise (hsorted.filter _)

/-- Witness for C1 at a concrete input: capacities 10, 20, 30 for limit states
1, 2, 3 and demand 25; limit states 1 and 2 are exceeded and the pick of limit
state 2 (here 3 = ls + 1) wins. -/
theorem C1_witness :
    evaluate_damage_state 25 (fun ls => if ls = 1 then 10 else if ls = 2 then 20 else 30)
      (fun ls => ls + 1) [1, 2, 3] = 3 :=
  ((C1_damage_state_is_highest_exceeded_pick 25
      (fun ls => if ls = 1 then 10 else if ls = 2 then 20 else 30)
      (fun ls => ls + 1) [1, 2, 3] (by decide)).1).trans (by decide)

/-- C9 counterexample: at the concrete input PID = -1 (a single-cell table)
with yield_drift = 1 > 0 and noise factor 1, `estimate_RID` returns -1, not 0,
although PID < yield_drift; so the claim as stated (for every PID table) is
false. -/
theorem C9_counterexample :
    ((-1 : ℚ) < 1) ∧ (0 < (1 : ℚ))
      ∧ estimate_RID 1 (fun _ => -1) (fun _ => 1) 0 = -1
      ∧ ((-1 : ℚ) ≠ 0) := by
  refine ⟨by norm_num, by norm_num, ?_, by norm_num⟩
  decide

/-- C9 (amended): for every yield_drift > 0, every PID table and every
(positive) noise table, the residual drifts returned by
`DemandModel.estimate_RID` with method FEMA P58 are elementwise never greater
than PID, and are exactly 0 wherever the PID entry is nonnegative and less
than yield_drift. -/
theorem C9_RID_capped_and_zero_below_yield
    (yield_drift : ℚ) (PID noise : Nat → ℚ) (_hyd : 0 < yield_drift) :
    (∀ i, estimate_RID yield_drift PID noise i ≤ PID i)
    ∧ (∀ i, 0 ≤ PID i → PID i < yield_drift →
        estimate_RID yield_drift PID noise i = 0) := by
  constructor
  · intro i
    simp only [estimate_RID]
    exact min_le_left _ _
  · intro i h0 hlt
    simp only [estimate_RID, if_pos hlt, lt_self_iff_false, if_neg (lt_irrefl 0)]
    exact min_eq_right h0

/-- Witness for C9 (amended) at a concrete input: yield_drift = 1,
PID = 1/2 ≥ 0, noise = 2; the estimated residual drift is exactly 0. -/
theorem C9_witness :
    estimate_RID 1 (fun _ => 1 / 2) (fun _ => 2) 0 = 0 :=
  (C9_RID_capped_and_zero_below_yield 1 (fun _ => 1 / 2) (fun _ => 2)
      (by norm_num)).2 0 (by norm_num) (by norm_num)

/-- One-step unfolding of `np_interp` on a list with at least two points. -/
theorem np_interp_cons_cons (x : ℚ) (p q : ℚ × ℚ) (rest : List (ℚ × ℚ)) :
    np_interp x (p :: q :: rest)
      = if x ≤ p.1 then p.2
        else if x ≤ q.1 then p.2 + (q.2 - p.2) * (x - p.1) / (q.1 - p.1)
        else np_interp x (q :: rest) := rfl

/-- Unfolding of `np_interp` on a single control point. -/
theorem np_interp_singleton (x : ℚ) (p : ℚ × ℚ) : np_interp x [p] = p.2 := rfl

/-- Clamping below the control range: `np.interp` returns the first y value
for any x at or below the first control point. -/
theorem np_interp_le_head (x x0 y0 : ℚ) (rest : List (ℚ × ℚ)) (hx : x ≤ x0) :
    np_interp x ((x0, y0) :: rest) = y0 := by
  cases rest with
  | nil => exact np_interp_singleton x _
  | cons q r => rw [np_interp_cons_cons, if_pos hx]

/-- Clamping above the control range: `np.interp` returns the last y value for
any x at or above the last control point (x coordinates strictly increasing). -/
theorem np_interp_ge_last (x : ℚ) : ∀ (pts : List (ℚ × ℚ)) (x1 y1 : ℚ),
    List.Pairwise (fun p q : ℚ × ℚ => p.1 < q.1) pts →
    pts.getLast? = some (x1, y1) → x1 ≤ x → np_interp x pts = y1
  | [], _, _, _, hlast, _ => by simp at hlast
  | [p], x1, y1, _, hlast, _ => by
      simp at hlast
      rw [np_interp_singleton, hlast]
  | p :: q :: r, x1, y1, hsort, hlast, hx => by
      rw [List.getLast?_cons_cons] at hlast
      have hmem : (x1, y1) ∈ q :: r := List.mem_of_mem_getLast? hlast
      have hp1 : p.1 < x1 := (List.pairwise_cons.mp hsort).1 _ hmem
      have hnle : ¬ x ≤ p.1 := not_le.mpr (lt_of_lt_of_le hp1 hx)
      cases r with
      | nil =>
        simp only [List.getLast?_singleton, Option.some.injEq] at hlast
        subst hlast
        rw [np_interp_cons_cons, if_neg hnle]
        by_cases h2 : x ≤ x1
        · have hxeq : x = x1 := le_antisymm h2 hx
          have hne : x1 - p.1 ≠ 0 := sub_ne_zero.mpr (ne_of_gt hp1)
          rw [if_pos h2, hxeq, mul_div_assoc, div_self hne, mul_one]
          ring
        · rw [if_neg h2, np_interp_singleton]
      | cons s r2 =>
        have hq1 : q.1 < x1 := by
          have hmem2 : (x1, y1) ∈ s :: r2 :=
            List.mem_of_mem_getLast? (by rw [← List.getLast?_cons_cons (a := q)]; exact hlast)
          exact (List.pairwise_cons.mp (List.pairwise_cons.mp hsort).2).1 _ hmem2
        have hnle2 : ¬ x ≤ q.1 := not_le.mpr (lt_of_lt_of_le hq1 hx)
        rw [np_interp_cons_cons, if_neg hnle, if_neg hnle2]
        exact np_interp_ge_last x (q :: s :: r2) x1 y1 (List.pairwise_cons.mp hsort).2
          (by rw [List.getLast?_cons_cons]; exact hlast) hx

/-- Interpolation inside a segment: for x between two consecutive control
points, `np.interp` returns the linear interpolation between them (x
coordinates strictly increasing). -/
theorem np_interp_segment (x : ℚ) : ∀ (l1 : List (ℚ × ℚ)) (x0 y0 x1 y1 : ℚ)
    (l2 : List (ℚ × ℚ)),
    List.Pairwise (fun p q : ℚ × ℚ => p.1 < q.1) (l1 ++ (x0, y0) :: (x1, y1) :: l2) →
    x0 ≤ x → x ≤ x1 →
    np_interp x (l1 ++ (x0, y0) :: (x1, y1) :: l2)
      = y0 + (y1 - y0) * (x - x0) / (x1 - x0)
  | [], x0, y0, x1, y1, l2, hsort, h0, h1 => by
      have h01 : x0 < x1 := (List.pairwise_cons.mp hsort).1 _ (List.mem_cons_self _ _)
      rw [List.nil_append, np_interp_cons_cons]
      by_cases hle : x ≤ x0
      · have hx0 : x = x0 := le_antisymm hle h0
        rw [if_pos hle, hx0]
        simp
      · rw [if_neg hle, if_pos h1]
  | p :: l1, x0, y0, x1, y1, l2, hsort, h0, h1 => by
      have hx0mem : (x0, y0) ∈ l1 ++ (x0, y0) :: (x1, y1) :: l2 :=
        List.mem_append_right _ (List.mem_cons_self _ _)
      have hp0 : p.1 < x0 := (List.pairwise_cons.mp hsort).1 _ hx0mem
      have hnle : ¬ x ≤ p.1 := not_le.mpr (lt_of_lt_of_le hp0 h0)
      cases l1 with
      | nil =>
        rw [List.cons_append, List.nil_append, np_interp_cons_cons, if_neg hnle]
        by_cases h2 : x ≤ x0
        · have hx0 : x = x0 := le_antisymm h2 h0
          have hne : x0 - p.1 ≠ 0 := sub_ne_zero.mpr (ne_of_gt hp0)
          rw [if_pos h2, hx0, mul_div_assoc, div_self hne, mul_one]
          simp
        · rw [if_neg h2]
          have := np_interp_segment x [] x0 y0 x1 y1 l2 (List.pairwise_cons.mp hsort).2 h0 h1
          rw [List.nil_append] at this
          exact this
      | cons p2 l1t =>
        have hp20 : p2.1 < x0 := by
          have := (List.pairwise_cons.mp (List.pairwise_cons.mp hsort).2).1
          exact this _ (List.mem_append_right _ (List.mem_cons_self _ _))
        have hnle2 : ¬ x ≤ p2.1 := not_le.mpr (lt_of_lt_of_le hp20 h0)
        rw [List.cons_append, List.cons_append, np_interp_cons_cons, if_neg hnle, if_neg hnle2]
        have := np_interp_segment x (p2 :: l1t) x0 y0 x1 y1 l2
          (List.pairwise_cons.mp hsort).2 h0 h1
        rw [List.cons_append] at this
        exact this

/-- C8: the function returned by `prep_constant_median_DV` ignores the damaged
quantity, and the function returned by `prep_bounded_multilinear_median_DV`
(that is, `np.interp` over the quantity/median control points, x coordinates
strictly increasing) clamps to the first median below the control range,
clamps to the last median above it, and linearly interpolates between two
consecutive control points inside it. -/
theorem C8_median_DV_functions (m q : ℚ) (qs ms : List ℚ)
    (hlen : qs.length = ms.length) (hsort : List.Pairwise (· < ·) qs) :
    (prep_constant_median_DV m q = m)
    ∧ (∀ x0 y0 rest, qs.zip ms = (x0, y0) :: rest → q ≤ x0 →
        prep_bounded_multilinear_median_DV ms qs q = y0)
    ∧ (∀ front x1 y1, qs.zip ms = front ++ [(x1, y1)] → x1 ≤ q →
        prep_bounded_multilinear_median_DV ms qs q = y1)
    ∧ (∀ l1 x0 y0 x1 y1 l2, qs.zip ms = l1 ++ (x0, y0) :: (x1, y1) :: l2 →
        x0 ≤ q → q ≤ x1 →
        prep_bounded_multilinear_median_DV ms qs q
          = y0 + (y1 - y0) * (q - x0) / (x1 - x0)) := by
  have hfst : (qs.zip ms).map Prod.fst = qs := List.map_fst_zip qs ms (le_of_eq hlen)
  have hzsort : List.Pairwise (fun p r : ℚ × ℚ => p.1 < r.1) (qs.zip ms) := by
    have := hsort
    rw [← hfst] at this
    exact (List.pairwise_map.mp this)
  refine ⟨rfl, ?_, ?_, ?_⟩
  · intro x0 y0 rest hzip hq
    unfold prep_bounded_multilinear_median_DV
    rw [hzip]
    exact np_interp_le_head q x0 y0 rest hq
  · intro front x1 y1 hzip hq
    unfold prep_bounded_multilinear_median_DV
    rw [hzip]
    refine np_interp_ge_last q (front ++ [(x1, y1)]) x1 y1 ?_ ?_ hq
    · rw [← hzip]; exact hzsort
    · simp
  · intro l1 x0 y0 x1 y1 l2 hzip hq0 hq1
    unfold prep_bounded_multilinear_median_DV
    rw [hzip]
    refine np_interp_segment q l1 x0 y0 x1 y1 l2 ?_ hq0 hq1
    rw [← hzip]; exact hzsort

/-- Witness for C8 at a concrete input: control points (0, 100) and (10, 200);
the median at quantity 5 is the linear interpolation 150. -/
theorem C8_witness :
    prep_bounded_multilinear_median_DV [100, 200] [0, 10] 5
      = 100 + (200 - 100) * (5 - 0) / (10 - 0) :=
  (C8_median_DV_functions 0 5 [0, 10] [100, 200] (by decide) (by decide)).2.2.2
    [] 0 100 10 200 [] rfl (by norm_num) (by norm_num)

/-- C4: after the replacement override of `BldgRepairModel._generate_DV_sample`,
in every realization whose summed replacement consequence is positive, every
column entry with location other than 0 is exactly 0 and entries at location 0
are preserved; realizations without a positive replacement consequence are
left unchanged. -/
theorem C4_replacement_override (T : DVTable) (k : DVKey) (i : Nat) (_hk : k ∈ T.cols) :
    (0 < replacement_sum T i →
        (k.loc ≠ "0" → (apply_replacement_override T).val k i = 0)
        ∧ (k.loc = "0" → (apply_replacement_override T).val k i = T.val k i))
    ∧ (¬ 0 < replacement_sum T i →
        (apply_replacement_override T).val k i = T.val k i) := by
  have hrep : 0 < replacement_sum T i →
      (T.cols.filter fun c => decide (c.loss = "replacement")) ≠ [] := by
    intro hpos hnil
    rw [replacement_sum, hnil] at hpos
    simp at hpos
  refine ⟨fun hpos => ⟨fun hloc => ?_, fun hloc => ?_⟩, fun hneg => ?_⟩
  · simp only [apply_replacement_override]
    rw [if_pos ⟨hrep hpos, hpos, hloc⟩]
  · simp only [apply_replacement_override]
    rw [if_neg]
    rintro ⟨-, -, h⟩
    exact h hloc
  · simp only [apply_replacement_override]
    rw [if_neg]
    rintro ⟨-, h, -⟩
    exact hneg h

/-- Witness for C4 at a concrete input: the replacement sum of realization 0
is 5 > 0, and the location-2 column is zeroed by the override. -/
theorem C4_witness :
    (0 < replacement_sum dvC4 0)
    ∧ (apply_replacement_override dvC4).val ⟨"COST", "cmp.A", "cmp.A", "1", "2", "1"⟩ 0 = 0 :=
  ⟨by simp +decide [replacement_sum, dvC4],
    ((C4_replacement_override dvC4 ⟨"COST", "cmp.A", "cmp.A", "1", "2", "1"⟩ 0
        (by decide)).1 (by simp +decide [replacement_sum, dvC4])).1 (by decide)⟩

/-- A map of the constant 0 sums to 0. -/
theorem sum_map_const_zero {α : Type} (L : List α) : (L.map fun _ => (0 : ℚ)).sum = 0 := by
  induction L with
  | nil => rfl
  | cons a t ih => simp [ih]

/-- Mapped sums distribute over pointwise addition. -/
theorem sum_map_add {α : Type} (L : List α) (f g : α → ℚ) :
    (L.map fun a => f a + g a).sum = (L.map f).sum + (L.map g).sum := by
  induction L with
  | nil => simp
  | cons a t ih =>
    simp only [List.map_cons, List.sum_cons, ih]
    ring

/-- Summing an indicator over a list avoiding the key gives 0. -/
theorem sum_map_ite_zero (a : String) (c : ℚ) : ∀ (L : List String), a ∉ L →
    (L.map fun l => if a = l then c else 0).sum = 0
  | [], _ => rfl
  | x :: t, h => by
      have hax : a ≠ x := fun hh => h (hh ▸ List.mem_cons_self x t)
      simp only [List.map_cons, List.sum_cons, if_neg hax]
      rw [sum_map_ite_zero a c t (fun ht => h (List.mem_cons_of_mem x ht))]
      ring

/-- Summing an indicator over a duplicate-free list containing the key gives
the indicated value. -/
theorem sum_map_ite_singleton (a : String) (c : ℚ) : ∀ (L : List String), L.Nodup →
    a ∈ L → (L.map fun l => if a = l then c else 0).sum = c
  | [], _, ha => by simp at ha
  | x :: t, hnd, ha => by
      rcases List.mem_cons.mp ha with rfl | hat
      · have hnot : a ∉ t := (List.nodup_cons.mp hnd).1
        rw [List.map_cons, List.sum_cons, if_pos rfl, sum_map_ite_zero a c t hnot]
        ring
      · have hax : a ≠ x := by
          rintro rfl
          exact (List.nodup_cons.mp hnd).1 hat
        simp only [List.map_cons, List.sum_cons, if_neg hax]
        rw [sum_map_ite_singleton a c t (List.nodup_cons.mp hnd).2 hat]
        ring

/-- Partitioning a sum by a key: summing the per-group sums over a
duplicate-free list of group keys covering all elements gives the total sum. -/
theorem sum_filter_groups {α : Type} (key : α → String) (v : α → ℚ) :
    ∀ (xs : List α) (L : List String), L.Nodup → (∀ x ∈ xs, key x ∈ L) →
    (L.map fun l => ((xs.filter fun x => decide (key x = l)).map v).sum).sum
      = (xs.map v).sum
  | [], L, _, _ => by
      simp only [List.filter_nil, List.map_nil, List.sum_nil]
      exact sum_map_const_zero L
  | x :: xs, L, hnd, hcov => by
      have ih := sum_filter_groups key v xs L hnd
        (fun y hy => hcov y (List.mem_cons_of_mem x hy))
      have hsplit : (L.map fun l =>
            (((x :: xs).filter fun y => decide (key y = l)).map v).sum)
          = (L.map fun l => (if key x = l then v x else 0)
              + ((xs.filter fun y => decide (key y = l)).map v).sum) := by
        apply List.map_congr_left
        intro l _
        by_cases h : key x = l
        · simp [List.filter_cons, h]
        · simp [List.filter_cons, h]
      rw [hsplit, sum_map_add,
        sum_map_ite_singleton (key x) (v x) L hnd (hcov x (List.mem_cons_self x xs)), ih]
      simp

/-- The dv-and-loc filter of `dv_loc_total` factors through the dv filter. -/
theorem filter_dv_loc (cols : List DVKey) (dvType l : String) :
    (cols.filter fun k => decide (k.dv = dvType ∧ k.loc = l))
      = ((cols.filter fun k => decide (k.dv = dvType)).filter
          fun k => decide (k.loc = l)) := by
  induction cols with
  | nil => rfl
  | cons k t ih =>
    rw [List.filter_cons, List.filter_cons]
    by_cases h1 : k.dv = dvType
    · by_cases h2 : k.loc = l
      · rw [if_pos (by simp [h1, h2]), if_pos (by simp [h1]), List.filter_cons,
          if_pos (by simp [h2]), ih]
      · rw [if_neg (by simp [h1, h2]), if_pos (by simp [h1]), List.filter_cons,
          if_neg (by simp [h2]), ih]
    · rw [if_neg (by simp [h1]), if_neg (by simp [h1]), ih]

/-- The per-location groupby of `aggregate_losses` partitions the columns of a
decision-variable type: summing the per-location totals gives the sum of all
entries of that type. -/
theorem dv_sum_by_loc (T : DVTable) (dvType : String) (i : Nat) :
    ((dv_group_locs T dvType).map fun l => dv_loc_total T dvType l i).sum
      = ((T.cols.filter fun k => decide (k.dv = dvType)).map fun k => T.val k i).sum := by
  have hmapc : ((dv_group_locs T dvType).map fun l => dv_loc_total T dvType l i)
      = ((dv_group_locs T dvType).map fun l =>
          (((T.cols.filter fun k => decide (k.dv = dvType)).filter
              fun k => decide (k.loc = l)).map fun k => T.val k i).sum) := by
    apply List.map_congr_left
    intro l _
    rw [dv_loc_total, filter_dv_loc]
  rw [hmapc]
  exact sum_filter_groups (fun k => k.loc) (fun k => T.val k i) _ _
    (List.nodup_dedup _)
    (fun x hx => List.mem_dedup.mpr (List.mem_map_of_mem _ hx))

/-- The running maximum of nonnegative values is bounded by their sum. -/
theorem foldl_max_le_sum : ∀ (xs : List ℚ) (x : ℚ), 0 ≤ x → (∀ y ∈ xs, 0 ≤ y) →
    xs.foldl max x ≤ x + xs.sum
  | [], x, _, _ => by simp
  | y :: t, x, hx, hall => by
      have hy : 0 ≤ y := hall y (List.mem_cons_self _ _)
      have h1 : t.foldl max (max x y) ≤ max x y + t.sum :=
        foldl_max_le_sum t (max x y) (le_max_of_le_left hx)
          (fun z hz => hall z (List.mem_cons_of_mem _ hz))
      have h2 : max x y ≤ x + y :=
        max_le (le_add_of_nonneg_right hy) (le_add_of_nonneg_left hx)
      have h3 : (y :: t).foldl max x = t.foldl max (max x y) := rfl
      rw [h3, List.sum_cons]
      linarith

/-- C10: for a consequence sample with only nonnegative entries (and at least
one TIME column), `aggregate_losses` returns, in every realization, a
repair_time-parallel value (max of per-location TIME totals) bounded by the
repair_time-sequential value (sum of per-location TIME totals), and a
repair_cost equal to the sum of all COST entries of the realization. -/
theorem C10_aggregate_losses (T : DVTable) (i : Nat)
    (hnn : ∀ k ∈ T.cols, 0 ≤ T.val k i)
    (_htime : ∃ k ∈ T.cols, k.dv = "TIME") :
    repair_time_parallel T i ≤ repair_time_sequential T i
    ∧ repair_cost T i
        = ((T.cols.filter fun k => decide (k.dv = "COST")).map fun k => T.val k i).sum := by
  constructor
  · have hvnn : ∀ y ∈ (dv_group_locs T "TIME").map fun l => dv_loc_total T "TIME" l i,
        0 ≤ y := by
      intro y hy
      rcases List.mem_map.mp hy with ⟨l, -, rfl⟩
      apply List.sum_nonneg
      intro z hz
      rcases List.mem_map.mp hz with ⟨k, hk, rfl⟩
      exact hnn k (List.mem_of_mem_filter hk)
    unfold repair_time_parallel repair_time_sequential
    cases hv : (dv_group_locs T "TIME").map fun l => dv_loc_total T "TIME" l i with
    | nil => simp
    | cons x xs =>
      rw [hv] at hvnn
      have hx : 0 ≤ x := hvnn x (List.mem_cons_self _ _)
      have hxs : ∀ y ∈ xs, 0 ≤ y := fun y hy => hvnn y (List.mem_cons_of_mem _ hy)
      have := foldl_max_le_sum xs x hx hxs
      simpa [List.sum_cons] using this
  · exact dv_sum_by_loc T "COST" i

/-- Witness for C10 at a concrete input: two cost and two time columns with
nonnegative values. -/
theorem C10_witness :
    repair_time_parallel dvC10 0 ≤ repair_time_sequential dvC10 0
    ∧ repair_cost dvC10 0
        = ((dvC10.cols.filter fun k => decide (k.dv = "COST")).map fun k => dvC10.val k 0).sum :=
  C10_aggregate_losses dvC10 0 (by decide) (by decide)

/-- C6: for every performance group and block whose limit states are all
defined via fragility families (not the `function` family),
`DamageModel._create_dmg_RVs` registers exactly one RV set per block; the set
holds all of that block's limit-state capacity RV tags and its correlation
matrix is the square all-ones matrix, i.e. the capacities across limit states
within one block are sampled perfectly correlated, regardless of any other
input. -/
theorem C6_block_capacities_perfectly_correlated
    (cmp loc dir : String) (limit_states : List String) (params : String → LSParams)
    (nblocks : Nat)
    (hdef : ∀ ls ∈ limit_states,
      (params ls).theta0.isSome = true ∧ (params ls).family ≠ some "function")
    (hne : limit_states ≠ []) :
    (create_dmg_RV_sets cmp loc dir limit_states params nblocks).length = nblocks
    ∧ ∀ s ∈ create_dmg_RV_sets cmp loc dir limit_states params nblocks,
        (∃ b < nblocks, s.tags = limit_states.map (frg_rv_tag cmp loc dir (b + 1)))
        ∧ s.corr.length = s.tags.length
        ∧ ∀ row ∈ s.corr, row.length = s.tags.length ∧ ∀ x ∈ row, x = (1 : ℚ) := by
  have hfilter : (limit_states.filter fun ls =>
      decide ((params ls).theta0.isSome = true ∧ (params ls).family ≠ some "function"))
        = limit_states := by
    apply List.filter_eq_self.mpr
    intro ls hls
    exact decide_eq_true (hdef ls hls)
  have htags : ∀ b, block_capacity_tags cmp loc dir limit_states params b
      = limit_states.map (frg_rv_tag cmp loc dir (b + 1)) := by
    intro b
    rw [block_capacity_tags, hfilter]
  have hpos : ∀ b, 0 < (block_capacity_tags cmp loc dir limit_states params b).length := by
    intro b
    rw [htags, List.length_map]
    exact List.length_pos.mpr hne
  have hcreate : create_dmg_RV_sets cmp loc dir limit_states params nblocks
      = (List.range nblocks).map fun block_i =>
          { name := "FRG-" ++ cmp ++ "-" ++ loc ++ "-" ++ dir ++ "-"
                ++ toString (block_i + 1) ++ "_set"
            tags := block_capacity_tags cmp loc dir limit_states params block_i
            corr := List.replicate
                (block_capacity_tags cmp loc dir limit_states params block_i).length
                (List.replicate
                  (block_capacity_tags cmp loc dir limit_states params block_i).length 1) } := by
    rw [create_dmg_RV_sets, ← List.filterMap_eq_map]
    apply List.filterMap_congr
    intro b _
    simp only [if_pos (hpos b), Function.comp]
  constructor
  · rw [hcreate, List.length_map, List.length_range]
  · intro s hs
    rw [hcreate] at hs
    rcases List.mem_map.mp hs with ⟨b, hb, rfl⟩
    have hbn : b < nblocks := List.mem_range.mp hb
    refine ⟨⟨b, hbn, htags b⟩, ?_, ?_⟩
    · simp
    · intro row hrow
      have hrow2 := List.eq_of_mem_replicate hrow
      subst hrow2
      refine ⟨by simp, fun x hx => List.eq_of_mem_replicate hx⟩

/-- Witness for C6 at a concrete input: one block, two limit states with
lognormal fragilities. -/
theorem C6_witness :
    (create_dmg_RV_sets "cmp.A" "1" "1" ["1", "2"]
        (fun _ => ⟨some 1, some "lognormal"⟩) 1).length = 1
    ∧ ∀ s ∈ create_dmg_RV_sets "cmp.A" "1" "1" ["1", "2"]
        (fun _ => ⟨some 1, some "lognormal"⟩) 1,
        (∃ b < 1, s.tags = ["1", "2"].map (frg_rv_tag "cmp.A" "1" "1" (b + 1)))
        ∧ s.corr.length = s.tags.length
        ∧ ∀ row ∈ s.corr, row.length = s.tags.length ∧ ∀ x ∈ row, x = (1 : ℚ) :=
  C6_block_capacities_perfectly_correlated "cmp.A" "1" "1" ["1", "2"]
    (fun _ => ⟨some 1, some "lognormal"⟩) 1 (by decide) (by decide)

/-- The running maximum over a list is attained either at the initial value or
at a list element. -/
theorem foldl_max_attained {α : Type} (f : α → ℚ) : ∀ (xs : List α) (x : ℚ),
    xs.foldl (fun m a => max m (f a)) x = x
      ∨ ∃ a ∈ xs, xs.foldl (fun m a => max m (f a)) x = f a
  | [], x => Or.inl rfl
  | a :: t, x => by
      rcases le_total (f a) x with hle | hle
      · have hmax : max x (f a) = x := max_eq_left hle
        rcases foldl_max_attained f t (max x (f a)) with h | ⟨b, hb, h⟩
        · exact Or.inl (by rw [List.foldl_cons] at *; rw [h, hmax])
        · exact Or.inr ⟨b, List.mem_cons_of_mem _ hb, by rw [List.foldl_cons]; exact h⟩
      · have hmax : max x (f a) = f a := max_eq_right hle
        rcases foldl_max_attained f t (max x (f a)) with h | ⟨b, hb, h⟩
        · exact Or.inr ⟨a, List.mem_cons_self _ _, by rw [List.foldl_cons, h, hmax]⟩
        · exact Or.inr ⟨b, List.mem_cons_of_mem _ hb, by rw [List.foldl_cons]; exact h⟩

/-- The running maximum bounds the initial value and every list element from
above. -/
theorem foldl_max_ub {α : Type} (f : α → ℚ) : ∀ (xs : List α) (x : ℚ),
    x ≤ xs.foldl (fun m a => max m (f a)) x
      ∧ ∀ a ∈ xs, f a ≤ xs.foldl (fun m a => max m (f a)) x
  | [], x => ⟨le_refl x, by intro a ha; simp at ha⟩
  | a :: t, x => by
      have ih := foldl_max_ub f t (max x (f a))
      constructor
      · exact le_trans (le_max_left _ _) (by rw [List.foldl_cons]; exact ih.1)
      · intro b hb
        rcases List.mem_cons.mp hb with rfl | hbt
        · exact le_trans (le_max_right _ _) (by rw [List.foldl_cons]; exact ih.1)
        · rw [List.foldl_cons]
          exact ih.2 b hbt

/-- C7: for a performance group whose component is non-directional, the
required demand resolves to direction 0 at the location obtained by adding the
component offset plus the optional global offset for the demand type to the
component location, and the assembled demand in every realization is the
maximum of the available demand values across all directions at that EDP type
and location, multiplied by the non-directional multiplier; the multiplier
defaults to 1.2 when not configured. -/
theorem C7_nondirectional_demand_resolution
    (demand_offset : List (String × Int)) (ndcfg : List (String × ℚ))
    (DP : DemandParams) (pg : PG) (acr : String)
    (hdir : DP.directional = false)
    (hbar : splitBarAux DP.demand_type.data [] = none)
    (hmap : EDP_to_demand_type.lookup DP.demand_type = some acr)
    (sample : DemandSample) (c : DemandCol) (cs : List DemandCol)
    (hcols : (sample.filter fun cc => decide (cc.1.1 = acr
        ∧ cc.1.2.1 = toString (pg.2.1 + DP.offset
            + ((demand_offset.lookup acr).getD 0)))) = c :: cs) :
    (get_required_demand_type demand_offset DP pg
        = some (acr, toString (pg.2.1 + DP.offset + ((demand_offset.lookup acr).getD 0)), "0"))
    ∧ (∃ f, assemble_required_demand_data ndcfg sample
          (acr, toString (pg.2.1 + DP.offset + ((demand_offset.lookup acr).getD 0)), "0")
            = .ok f
        ∧ ∀ i, ∃ M, f i = M * nondir_multi ndcfg acr
            ∧ (∃ cc ∈ c :: cs, M = cc.2 i)
            ∧ (∀ cc ∈ c :: cs, cc.2 i ≤ M))
    ∧ nondir_multi [] acr = 6 / 5 := by
  refine ⟨?_, ?_, rfl⟩
  · simp only [get_required_demand_type, parse_demand_type, hbar, hmap, hdir, if_neg
      Bool.false_ne_true, Option.some.injEq]
    cases hoff : demand_offset.lookup acr with
    | none => simp [hoff]
    | some g => simp [hoff, add_assoc]
  · simp only [assemble_required_demand_data, if_pos rfl]
    rw [hcols]
    refine ⟨_, rfl, fun i => ?_⟩
    refine ⟨cs.foldl (fun m cc => max m (cc.2 i)) (c.2 i), rfl, ?_, ?_⟩
    · rcases foldl_max_attained (fun cc : DemandCol => cc.2 i) cs (c.2 i) with h | ⟨b, hb, h⟩
      · exact ⟨c, List.mem_cons_self _ _, h⟩
      · exact ⟨b, List.mem_cons_of_mem _ hb, h⟩
    · intro cc hcc
      rcases List.mem_cons.mp hcc with rfl | hcct
      · exact (foldl_max_ub (fun cc : DemandCol => cc.2 i) cs (cc.2 i)).1
      · exact (foldl_max_ub (fun cc : DemandCol => cc.2 i) cs (c.2 i)).2 cc hcct

/-- Witness for C7 at a concrete input: non-directional PFA component at
location 2 with global PFA offset -1; the two direction columns at location 1
are maxed and scaled. -/
theorem C7_witness :
    (get_required_demand_type [("PFA", -1)] ⟨false, 0, "Peak Floor Acceleration"⟩
        ("cmp.A", 2, "1")
        = some ("PFA", toString ((2 : Int) + 0 + (([("PFA", (-1 : Int))].lookup "PFA").getD 0)),
            "0"))
    ∧ (∃ f, assemble_required_demand_data [] sampleC7
          ("PFA", toString ((2 : Int) + 0 + (([("PFA", (-1 : Int))].lookup "PFA").getD 0)), "0")
            = .ok f
        ∧ ∀ i, ∃ M, f i = M * nondir_multi [] "PFA"
            ∧ (∃ cc ∈ [((("PFA", "1", "1") : String × String × String), fun _ => (2 : ℚ)),
                  (("PFA", "1", "2"), fun _ => 3)], M = cc.2 i)
            ∧ (∀ cc ∈ [((("PFA", "1", "1") : String × String × String), fun _ => (2 : ℚ)),
                  (("PFA", "1", "2"), fun _ => 3)], cc.2 i ≤ M))
    ∧ nondir_multi [] "PFA" = 6 / 5 :=
  C7_nondirectional_demand_resolution [("PFA", -1)] [] ⟨false, 0, "Peak Floor Acceleration"⟩
    ("cmp.A", 2, "1") "PFA" rfl rfl rfl sampleC7
    ((("PFA", "1", "1"), fun _ => 2)) [(("PFA", "1", "2"), fun _ => 3)] rfl

/-- C2: a performance group whose required demand is missing from the demand
sample is not skipped by `DamageModel.calculate`. The non-directional lookup
does log a warning and set the demand to None, but the loop then feeds None
into `_evaluate_damage_state`, whose subtraction raises TypeError, so the
whole damage calculation aborts instead of completing on the remaining
performance groups (cmp.A alone computes fine). -/
theorem C2_missing_demand_is_fatal_not_skipped :
    (assemble_required_demand_data [] sampleC2 ("PID", "1", "0") = .warnNone)
    ∧ (DamageModel_calculate [] [] dpC2 sampleC2 (fun _ _ _ => 1) (fun _ _ _ => 1)
        (fun _ => [1]) [("cmp.A", 1, "1"), ("cmp.B", 1, "1")]
          = .error "TypeError: unsupported operand type for sub: float and NoneType")
    ∧ (∃ r, DamageModel_calculate [] [] dpC2 sampleC2 (fun _ _ _ => 1) (fun _ _ _ => 1)
        (fun _ => [1]) [("cmp.A", 1, "1")] = .ok r) :=
  ⟨rfl, rfl, ⟨_, rfl⟩⟩

/-- Membership in the accumulator is preserved by the column-insertion fold. -/
theorem mem_foldl_insertCol_of_mem_acc (k : DmgKey) : ∀ (l : List DmgKey)
    (acc : List DmgKey), k ∈ acc → k ∈ l.foldl insertCol acc
  | [], _, h => h
  | a :: t, acc, h => by
      rw [List.foldl_cons]
      apply mem_foldl_insertCol_of_mem_acc k t
      unfold insertCol
      by_cases ha : a ∈ acc
      · rwa [if_pos ha]
      · rw [if_neg ha]
        exact List.mem_append_left _ h

/-- Every key offered to the column-insertion fold ends up among the columns. -/
theorem mem_foldl_insertCol_of_mem (k : DmgKey) : ∀ (l : List DmgKey)
    (acc : List DmgKey), k ∈ l → k ∈ l.foldl insertCol acc
  | [], _, h => absurd h (List.not_mem_nil k)
  | a :: t, acc, h => by
      rw [List.foldl_cons]
      rcases List.mem_cons.mp h with rfl | ht
      · apply mem_foldl_insertCol_of_mem_acc
        unfold insertCol
        by_cases ha : k ∈ acc
        · rwa [if_pos ha]
        · rw [if_neg ha]
          exact List.mem_append_right _ (List.mem_singleton.mpr rfl)
      · exact mem_foldl_insertCol_of_mem k t _ ht

/-- The NaN-skipping pairwise maximum is positive exactly when one of its
arguments holds a positive value. -/
theorem optMax_pos_iff (a o : Option ℚ) :
    (∃ w, optMax a o = some w ∧ 0 < w)
      ↔ (∃ w, a = some w ∧ 0 < w) ∨ (∃ w, o = some w ∧ 0 < w) := by
  cases a <;> cases o <;> simp [optMax, lt_max_iff]

/-- The NaN-skipping running maximum is positive exactly when the initial
value or one of the list elements holds a positive value. -/
theorem foldl_optMax_pos : ∀ (l : List (Option ℚ)) (acc : Option ℚ),
    (∃ v, l.foldl optMax acc = some v ∧ 0 < v)
      ↔ ((∃ w, acc = some w ∧ 0 < w) ∨ ∃ o ∈ l, ∃ w, o = some w ∧ 0 < w)
  | [], acc => by simp
  | o :: t, acc => by
      rw [List.foldl_cons, foldl_optMax_pos t (optMax acc o), optMax_pos_iff]
      constructor
      · rintro ((hacc | ho) | ⟨b, hb, hbp⟩)
        · exact Or.inl hacc
        · exact Or.inr ⟨o, List.mem_cons_self _ _, ho⟩
        · exact Or.inr ⟨b, List.mem_cons_of_mem _ hb, hbp⟩
      · rintro (hacc | ⟨b, hb, hbp⟩)
        · exact Or.inl (Or.inl hacc)
        · rcases List.mem_cons.mp hb with rfl | hbt
          · exact Or.inl (Or.inr hbp)
          · exact Or.inr ⟨b, hbt, hbp⟩

/-- The source condition of `_perform_dmg_task` holds in a realization exactly
when the source component has a column in the stated damage state holding a
positive quantity there. -/
theorem sourceTriggered_iff (T : QntTable) (src dsT : String) (i : Nat) :
    sourceTriggered T src dsT i = true
      ↔ ∃ k ∈ T.cols, (k.cmp = src ∧ k.ds = dsT) ∧ ∃ v, T.val k i = some v ∧ 0 < v := by
  have hmain : sourceTriggered T src dsT i = true
      ↔ ∃ v, (((T.cols.filter fun k => decide (k.cmp = src ∧ k.ds = dsT)).map
          fun k => T.val k i).foldl optMax none) = some v ∧ 0 < v := by
    unfold sourceTriggered
    cases hres : (((T.cols.filter fun k => decide (k.cmp = src ∧ k.ds = dsT)).map
        fun k => T.val k i).foldl optMax none) with
    | none => simp
    | some v => simp
  rw [hmain, foldl_optMax_pos]
  constructor
  · rintro (⟨w, hw, -⟩ | ⟨o, ho, w, hw, hpos⟩)
    · exact absurd hw (by simp)
    · rcases List.mem_map.mp ho with ⟨k, hkf, rfl⟩
      rcases List.mem_filter.mp hkf with ⟨hk, hkp⟩
      exact ⟨k, hk, of_decide_eq_true hkp, w, hw, hpos⟩
  · rintro ⟨k, hk, hkp, w, hw, hpos⟩
    exact Or.inr ⟨T.val k i,
      List.mem_map_of_mem _ (List.mem_filter.mpr ⟨hk, decide_eq_true hkp⟩), w, hw, hpos⟩

/-- The first-occurrence deduplication yields a duplicate-free list containing
exactly the elements of the input. -/
theorem foldl_ins_nodup {α : Type} [DecidableEq α] : ∀ (l : List α) (acc : List α),
    acc.Nodup → (l.foldl (fun acc x => if x ∈ acc then acc else acc ++ [x]) acc).Nodup
  | [], _, h => h
  | a :: t, acc, h => by
      rw [List.foldl_cons]
      apply foldl_ins_nodup t
      by_cases ha : a ∈ acc
      · rwa [if_pos ha]
      · rw [if_neg ha, List.nodup_append]
        refine ⟨h, List.nodup_singleton a, ?_⟩
        intro x hx hx2
        rw [List.mem_singleton] at hx2
        subst hx2
        exact ha hx

/-- `uniqueFirst` produces a duplicate-free list. -/
theorem uniqueFirst_nodup {α : Type} [DecidableEq α] (l : List α) :
    (uniqueFirst l).Nodup :=
  foldl_ins_nodup l [] List.nodup_nil

/-- C3: applying a damage-process rule with source condition
(`src` has positive quantity in damage state `dsT`) and a DS / NA target
event. In exactly the realizations where the source condition holds, the
target components' entire quantity is forced into the target damage state at
every of their location-direction pairs (the target column being created on
demand), their other columns are zeroed, and an NA event instead clears their
columns to undefined; realizations where the source condition fails are left
unchanged, and an ALL target resolves, at application time, to every known
component except the source component. -/
theorem C3_perform_dmg_task
    (T : QntTable) (cq : CmpQnt) (src dsT tspec dsI : String)
    (hsrc : ¬ (T.cols.filter fun k => decide (k.cmp = src ∧ k.ds = dsT)) = []) :
    (∀ i, sourceTriggered T src dsT i = true
        ↔ ∃ k ∈ T.cols, (k.cmp = src ∧ k.ds = dsT) ∧ ∃ v, T.val k i = some v ∧ 0 < v)
    ∧ (tspec = "ALL" → ∀ x,
        x ∈ resolveTargets (cmpList T) src tspec ↔ x ∈ cmpList T ∧ x ≠ src)
    ∧ (∀ t ∈ resolveTargets (cmpList T) src tspec, ∀ p ∈ cq.cols, p.1 = t →
        (⟨t, p.2.1, p.2.2, dsI⟩ : DmgKey)
          ∈ (perform_dmg_task T cq src dsT [(tspec, .toDS dsI)]).cols)
    ∧ (∀ t ∈ resolveTargets (cmpList T) src tspec, ∀ p ∈ cq.cols, p.1 = t →
        ∀ i, sourceTriggered T src dsT i = true →
        (perform_dmg_task T cq src dsT [(tspec, .toDS dsI)]).val ⟨t, p.2.1, p.2.2, dsI⟩ i
          = some (cq.val t p.2.1 p.2.2 i))
    ∧ (∀ k ∈ T.cols, k.cmp ∈ resolveTargets (cmpList T) src tspec →
        ¬ (k.ds = dsI ∧ (k.cmp, k.loc, k.dir) ∈ cq.cols) →
        ∀ i, sourceTriggered T src dsT i = true →
        (perform_dmg_task T cq src dsT [(tspec, .toDS dsI)]).val k i = some 0)
    ∧ (∀ k ∈ T.cols, ∀ i, sourceTriggered T src dsT i = false →
        (perform_dmg_task T cq src dsT [(tspec, .toDS dsI)]).val k i = T.val k i)
    ∧ (∀ k ∈ T.cols, k.cmp ∈ resolveTargets (cmpList T) src tspec →
        ∀ i, sourceTriggered T src dsT i = true →
        (perform_dmg_task T cq src dsT [(tspec, .clear)]).val k i = none)
    ∧ (∀ k ∈ T.cols, ∀ i, sourceTriggered T src dsT i = false →
        (perform_dmg_task T cq src dsT [(tspec, .clear)]).val k i = T.val k i) := by
  have hTDS : perform_dmg_task T cq src dsT [(tspec, .toDS dsI)]
      = applyDS T cq (sourceTriggered T src dsT) (resolveTargets (cmpList T) src tspec) dsI := by
    unfold perform_dmg_task
    rw [if_neg hsrc]
    rfl
  have hTNA : perform_dmg_task T cq src dsT [(tspec, .clear)]
      = applyNA T (sourceTriggered T src dsT) (resolveTargets (cmpList T) src tspec) := by
    unfold perform_dmg_task
    rw [if_neg hsrc]
    rfl
  refine ⟨fun i => sourceTriggered_iff T src dsT i, ?_, ?_, ?_, ?_, ?_, ?_, ?_⟩
  · intro hall x
    rw [resolveTargets, if_pos hall]
    have hnd : (cmpList T).Nodup := uniqueFirst_nodup _
    rw [hnd.mem_erase_iff]
    tauto
  · intro t ht p hp hpt
    rw [hTDS]
    apply mem_foldl_insertCol_of_mem
    unfold newKeys
    rw [List.mem_flatMap]
    refine ⟨t, ht, ?_⟩
    rw [List.mem_map]
    exact ⟨p, List.mem_filter.mpr ⟨hp, decide_eq_true hpt⟩, rfl⟩
  · intro t ht p hp hpt i hm
    rw [hTDS]
    show (if t ∈ _ ∧ dsI = dsI ∧ (t, p.2.1, p.2.2) ∈ cq.cols then _ else _) = _
    rw [if_pos ⟨ht, rfl, by rw [← hpt]; exact hp⟩, if_pos hm]
  · intro k hk hkt hnot i hm
    rw [hTDS]
    show (if k.cmp ∈ _ ∧ k.ds = dsI ∧ (k.cmp, k.loc, k.dir) ∈ cq.cols then _ else _) = _
    rw [if_neg (fun h => hnot ⟨h.2.1, h.2.2⟩), if_pos ⟨hkt, hk, hm⟩]
  · intro k hk i hm
    rw [hTDS]
    show (if k.cmp ∈ _ ∧ k.ds = dsI ∧ (k.cmp, k.loc, k.dir) ∈ cq.cols then _ else _) = _
    by_cases h1 : k.cmp ∈ resolveTargets (cmpList T) src tspec ∧ k.ds = dsI
        ∧ (k.cmp, k.loc, k.dir) ∈ cq.cols
    · rw [if_pos h1, if_neg (by simp [hm]), if_pos hk]
    · rw [if_neg h1, if_neg (fun h => by rw [hm] at h; exact Bool.false_ne_true h.2.2)]
  · intro k hk hkt i hm
    rw [hTNA]
    show (if k.cmp ∈ _ ∧ k ∈ T.cols ∧ _ then _ else _) = _
    rw [if_pos ⟨hkt, hk, hm⟩]
  · intro k hk i hm
    rw [hTNA]
    show (if k.cmp ∈ _ ∧ k ∈ T.cols ∧ _ then _ else _) = _
    rw [if_neg (fun h => by rw [hm] at h; exact Bool.false_ne_true h.2.2)]

/-- Witness for C3 at a concrete input: cmp.A damaged in damage state 1
triggers an ALL rule; cmp.B's full quantity (10) is moved into damage state 2,
and under an NA rule cmp.B's damage state 1 column is cleared. -/
theorem C3_witness :
    (¬ (qntC3.cols.filter fun k => decide (k.cmp = "cmp.A" ∧ k.ds = "1")) = [])
    ∧ sourceTriggered qntC3 "cmp.A" "1" 0 = true
    ∧ (perform_dmg_task qntC3 cqC3 "cmp.A" "1" [("ALL", .toDS "2")]).val
        ⟨"cmp.B", "1", "1", "2"⟩ 0 = some (cqC3.val "cmp.B" "1" "1" 0)
    ∧ (perform_dmg_task qntC3 cqC3 "cmp.A" "1" [("ALL", .clear)]).val
        ⟨"cmp.B", "1", "1", "1"⟩ 0 = none := by
  refine ⟨by decide, by decide, ?_, ?_⟩
  · exact (C3_perform_dmg_task qntC3 cqC3 "cmp.A" "1" "ALL" "2" (by decide)).2.2.2.1
      "cmp.B" (by decide) ("cmp.B", "1", "1") (by decide) rfl 0 (by decide)
  · exact (C3_perform_dmg_task qntC3 cqC3 "cmp.A" "1" "ALL" "2" (by decide)).2.2.2.2.2.2.1
      ⟨"cmp.B", "1", "1", "1"⟩ (by decide) (by decide) 0 (by decide)

/-- C5 (evaluation of the code at the failing configuration): with
AcrossFloors = false and AcrossDamageStates = false, the damage sample
`dqColsC5` damages component cmp.A in damage state 1 at the two locations 2
and 3, and the DS1 consequence is defined, yet `_calc_median_consequence`
produces no median column at all: the `eco_qnt` levels are (cmp, loc, ds),
`avail_ds` is read from the level right after cmp - the location level - and
since the damage state id 1 is not among the locations 2 and 3 the damage
state is skipped. The claim instead requires one median column per
(loss component, damage state, location) triple, i.e. two columns here. -/
theorem C5_across_floors_false_misses_locations :
    calc_median_cols false false ["DS1"] [⟨"0", "cmp.A", "cons.A"⟩]
        (fun _ => true) (fun _ _ => true) dqColsC5 = []
    ∧ uniqueFirst (dqColsC5.map fun k => k.loc) = ["2", "3"]
    ∧ (∀ k ∈ dqColsC5, k.ds = "1") := by
  refine ⟨by decide, by decide, by decide⟩

end Pelicun
